import Mathlib

/-!
Shallow embedding of the cp-mesh point-cloud pipeline
(src/FinalProject/FinalProject/FinalProject.cpp) and verification of its
specification claims.

Real numbers (`double` in the source) are modelled as exact rationals `ℚ`;
all definitions are executable.  The external alglib routines
(`kdtreequeryrnn`, `pcabuildbasis`) are not in the repository's sources:
their behaviour is either modelled from the spec (radius query) or
abstracted as a parameter (the PCA eigenvector matrix).
-/

namespace CPMesh

/-- `constants::dims = 3`: spatial dimensionality. -/
abbrev dims : ℕ := 3

/-- A point of R^dims, as in an alglib `real_1d_array` of length `dims`. -/
abbrev Point := Fin dims → ℚ

/-- The zero point, used as an out-of-range default for row reads. -/
def zeroPoint : Point := fun _ => 0

/-- `DBL_MAX`, the largest finite IEEE-754 double, as an exact rational:
(2 - 2^-52) * 2^1023 = 2^1024 - 2^971. -/
def DBL_MAX : ℚ := 2 ^ 1024 - 2 ^ 971

/-- The hard-coded neighbour query radius `kRadius = 4.0` from `main`. -/
def kRadius : ℚ := 4

/-- Embedding of `adaptDataPoints` (FinalProject.cpp:95-108): row `vertex`,
column `d` of the produced `real_2d_array` is
`vertices[vertex * dims + d]` (the source writes `marker = vertex * dims`
and reads `vertices[marker + d]`).  Reads beyond the flat stream default
to 0; the in-bounds theorem below shows the pipeline never needs them. -/
def adaptDataPoints (vertices : List ℚ) : ℕ → Point :=
  fun vertex d => vertices.getD (vertex * dims + d.val) 0

/-- `nPoints` as computed in `main` (FinalProject.cpp:264):
`pcloud.vertices.size() / constants::dims`, a floor division. -/
def nPoints (vertices : List ℚ) : ℕ := vertices.length / dims

/-- Squared Euclidean distance between two points (the k-d tree is built
with norm type 2, i.e. the Euclidean norm; comparing squared distances
against the squared radius is equivalent and stays in exact arithmetic). -/
def distSq (p q : Point) : ℚ := ∑ d : Fin dims, (p d - q d) ^ 2

/-- Modelled from the spec: `alglib::kdtreequeryrnn` (the radius query
behind `getKNeighbors`, FinalProject.cpp:139-150) is external library
code.  Per the spec it "returns all indexed points within Euclidean
distance radius of queryPoint, inclusive of the query point itself if it
is a member of the indexed set". -/
def queryRadius (pts : List Point) (q : Point) (radius : ℚ) : List Point :=
  pts.filter (fun p => distSq p q ≤ radius ^ 2)

/-- Modelled from the spec: the tagged radius query behind
`getKNeighborsTagged` (FinalProject.cpp:160-176) returns the same
neighbour set together with the integer tag stored for each indexed
point at build time. -/
def queryRadiusTagged (pts : List (Point × ℕ)) (q : Point) (radius : ℚ) :
    List (Point × ℕ) :=
  pts.filter (fun p => distSq p.1 q ≤ radius ^ 2)

/-- Embedding of `calculateCentroid` (FinalProject.cpp:188-208): the
accumulator starts at 0 in every dimension, the loop adds row `i` of the
neighbour matrix for `i = 0..k-1`, and each component is finally divided
by `k`. -/
def calculateCentroid (points : ℕ → Point) (k : ℕ) : Point :=
  let init : Point := fun _ => 0
  let summed := (List.range k).foldl (fun c i => fun d => c d + points i d) init
  fun d => summed d / (k : ℚ)

/-- Embedding of `calculateNormal` (FinalProject.cpp:222-242),
parameterized by the external `alglib::pcabuildbasis` routine `pca`,
which maps the k×dims neighbour matrix to the eigenvector matrix `pcaV`
(row `r`, column `c` as `pcaV r c`).  The source then executes
`normal.setcontent(constants::dims, pcaV[constants::dims-1])`: alglib's
`real_2d_array::operator[]` is row access, so this copies ROW `dims-1`
of `pcaV` into `normal`. -/
def calculateNormal (pca : (ℕ → Point) → ℕ → Fin dims → Fin dims → ℚ)
    (points : ℕ → Point) (k : ℕ) : Point :=
  fun d => pca points k 2 d

/-- Modelled from the spec: "takes the eigenvector associated with the
smallest eigenvalue (last column, since eigenvalues are returned in
descending order)".  alglib's `pcabuildbasis` documents that the COLUMNS
of `pcaV` store the basis vectors, ordered by descending eigenvalue, so
the smallest-eigenvalue eigenvector is the last column of `pcaV`. -/
def smallestEigenvector (pcaV : Fin dims → Fin dims → ℚ) : Point :=
  fun d => pcaV d 2

/-- The per-point tag assignment of `main` (FinalProject.cpp:303):
`tagsCentroids[i] = i`. -/
def tagsCentroids (n : ℕ) : List ℕ := List.range n

/-- The tagged centroid index of `main` (FinalProject.cpp:327-328): each
centroid is stored together with its tag, the index of the point it was
derived from. -/
def taggedCentroids (cs : List Point) : List (Point × ℕ) :=
  (List.range cs.length).map (fun i => (cs.getD i zeroPoint, i))

/-- One entry of the per-centroid weight matrix (FinalProject.cpp:357-375):
`weight` starts at `DBL_MAX`; when `u != v` it is set to 1 and then the
absolute values of the three per-component normal products are
subtracted in turn. -/
def graphWeight (normals : ℕ → Point) (tags : ℕ → ℕ) (u v : ℕ) : ℚ :=
  if u ≠ v then
    1 - |normals (tags u) 0 * normals (tags v) 0|
      - |normals (tags u) 1 * normals (tags v) 1|
      - |normals (tags u) 2 * normals (tags v) 2|
  else DBL_MAX

/-- The full k×k weight matrix built for one centroid neighbourhood
(FinalProject.cpp:352-376). -/
def buildGraph (normals : ℕ → Point) (tags : ℕ → ℕ) (k : ℕ) : List (List ℚ) :=
  (List.range k).map (fun u => (List.range k).map (fun v => graphWeight normals tags u v))

/-- The arrays produced by one run of the pipeline: the indexed centroid
and normal arrays and the per-centroid weight matrices. -/
structure PipelineOutput where
  centroids : List Point
  normals : List Point
  graphs : List (List (List ℚ))
  deriving DecidableEq

/-- The geometry pipeline of `main` after a successful load
(FinalProject.cpp:262-377): adapt the flat vertex stream into points,
index them, and for every point take its radius neighbourhood, centroid
and normal; then index the tagged centroids and build the per-centroid
weight matrices.  Parameterized by the external PCA routine `pca`. -/
def pipeline (pca : (ℕ → Point) → ℕ → Fin dims → Fin dims → ℚ)
    (vs : List ℚ) : PipelineOutput :=
  let n := nPoints vs
  let points := adaptDataPoints vs
  let ptsList := (List.range n).map points
  let centroids := (List.range n).map (fun i =>
    let neighbors := queryRadius ptsList (points i) kRadius
    calculateCentroid (fun j => neighbors.getD j zeroPoint) neighbors.length)
  let normals := (List.range n).map (fun i =>
    let neighbors := queryRadius ptsList (points i) kRadius
    calculateNormal pca (fun j => neighbors.getD j zeroPoint) neighbors.length)
  let tagged := taggedCentroids centroids
  let graphs := (List.range n).map (fun i =>
    let tneighbors := queryRadiusTagged tagged (centroids.getD i zeroPoint) kRadius
    buildGraph (fun t => normals.getD t zeroPoint)
      (fun u => (tneighbors.getD u (zeroPoint, 0)).2) tneighbors.length)
  ⟨centroids, normals, graphs⟩

/-- Outcome of the external OBJ loader (`loadCloud`,
FinalProject.cpp:39-60, wrapping tinyobj): either the flat vertex stream
or a failure. -/
inductive LoadResult where
  | ok : List ℚ → LoadResult
  | fail : LoadResult

/-- The control flow of `main` (FinalProject.cpp:249-381): on load
failure report an error and return exit status 1 without running any
geometry step; otherwise run the pipeline and return exit status 0.
The second component is the geometry computation performed, `none` when
none took place. -/
def mainRun (pca : (ℕ → Point) → ℕ → Fin dims → Fin dims → ℚ)
    (load : LoadResult) : ℕ × Option PipelineOutput :=
  match load with
  | .fail => (1, none)
  | .ok vs => (0, some (pipeline pca vs))

/-- A trivial stand-in PCA routine used only to instantiate witnesses. -/
def zeroPca : (ℕ → Point) → ℕ → Fin dims → Fin dims → ℚ :=
  fun _ _ _ _ => 0

end CPMesh

namespace CPMesh

/-- The loop accumulator of `calculateCentroid` computes the per-dimension
sum of the first `k` rows. -/
lemma centroid_foldl_eq_sum (points : ℕ → Point) (k : ℕ) (d : Fin dims) :
    ((List.range k).foldl (fun c i => fun d => c d + points i d)
      (fun _ => 0) : Point) d = ∑ i ∈ Finset.range k, points i d := by
  induction k with
  | zero => simp
  | succ m ih =>
      rw [List.range_succ, List.foldl_append, Finset.sum_range_succ, ← ih]
      simp

/-- C3: for every neighbour set of size k ≥ 1 the centroid is the
per-dimension arithmetic mean (sum of the k coordinates divided by k),
and for k = 1 the centroid is the single neighbour itself. -/
theorem calculateCentroid_is_mean (points : ℕ → Point) (k : ℕ) (hk : 1 ≤ k) :
    (∀ d, calculateCentroid points k d = (∑ i ∈ Finset.range k, points i d) / k)
    ∧ (k = 1 → calculateCentroid points k = points 0) := by
  constructor
  · intro d
    unfold calculateCentroid
    simp only [centroid_foldl_eq_sum]
  · intro h1
    subst h1
    funext d
    unfold calculateCentroid
    simp [centroid_foldl_eq_sum]

/-- Witness for C3 at a concrete neighbour set of size 1. -/
theorem calculateCentroid_is_mean_witness :
    1 ≤ 1 ∧
    ((∀ d, calculateCentroid (fun i _ => (i : ℚ) + 1) 1 d
        = (∑ i ∈ Finset.range 1, ((i : ℚ) + 1)) / 1)
      ∧ (1 = 1 → calculateCentroid (fun i _ => (i : ℚ) + 1) 1
          = (fun _ => (0 : ℚ) + 1))) :=
  ⟨le_refl 1, calculateCentroid_is_mean (fun i _ => (i : ℚ) + 1) 1 (le_refl 1)⟩

/-- C7: every diagonal entry of the weight matrix is the sentinel
`DBL_MAX`. -/
theorem graphWeight_diag (normals : ℕ → Point) (tags : ℕ → ℕ) (u : ℕ) :
    graphWeight normals tags u u = DBL_MAX := by
  simp [graphWeight]

/-- C9: the weight matrix is symmetric: the off-diagonal formula is
invariant under exchanging u and v, and the diagonal is constant. -/
theorem graphWeight_symm (normals : ℕ → Point) (tags : ℕ → ℕ) (u v : ℕ) :
    graphWeight normals tags u v = graphWeight normals tags v u := by
  unfold graphWeight
  rcases eq_or_ne u v with h | h
  · subst h; rfl
  · simp only [h, h.symm, ne_eq, not_false_eq_true, if_true]
    rw [mul_comm (normals (tags u) 0), mul_comm (normals (tags u) 1),
      mul_comm (normals (tags u) 2)]

/-- C1: for distinct neighbour slots u ≠ v the weight equals 1 minus the
sum of the absolute values of the per-component products of the normals
indexed by tag[u] and tag[v]. -/
theorem graphWeight_off_diag (normals : ℕ → Point) (tags : ℕ → ℕ) (u v : ℕ)
    (huv : u ≠ v) :
    graphWeight normals tags u v =
      1 - (|normals (tags u) 0 * normals (tags v) 0|
        + |normals (tags u) 1 * normals (tags v) 1|
        + |normals (tags u) 2 * normals (tags v) 2|) := by
  simp only [graphWeight, huv, ne_eq, not_false_eq_true, if_true]
  ring

/-- Witness for C1 at concrete normals, tags and slots 0 ≠ 1. -/
theorem graphWeight_off_diag_witness :
    (0 : ℕ) ≠ 1 ∧
    graphWeight (fun _ _ => (1 : ℚ)) (fun t => t) 0 1 =
      1 - (|(1 : ℚ) * 1| + |(1 : ℚ) * 1| + |(1 : ℚ) * 1|) :=
  ⟨Nat.zero_ne_one, graphWeight_off_diag (fun _ _ => (1 : ℚ)) (fun t => t) 0 1 Nat.zero_ne_one⟩

/-- C4: a radius query whose query point is a member of the indexed set
returns at least one neighbour (the point itself, since its distance to
itself is 0 ≤ radius²), so the divisor `k` in the centroid computation is
nonzero. -/
theorem queryRadius_self_inclusion (pts : List Point) (q : Point) (radius : ℚ)
    (hq : q ∈ pts) :
    1 ≤ (queryRadius pts q radius).length
    ∧ ((queryRadius pts q radius).length : ℚ) ≠ 0 := by
  have hmem : q ∈ queryRadius pts q radius := by
    unfold queryRadius
    rw [List.mem_filter]
    refine ⟨hq, ?_⟩
    have h0 : distSq q q = 0 := by simp [distSq]
    simpa [h0] using sq_nonneg radius
  have hlen : 0 < (queryRadius pts q radius).length := List.length_pos_of_mem hmem
  exact ⟨hlen, by exact_mod_cast Nat.pos_iff_ne_zero.mp hlen⟩

/-- Witness for C4 at the one-point set containing the query point. -/
theorem queryRadius_self_inclusion_witness :
    zeroPoint ∈ [zeroPoint] ∧
    (1 ≤ (queryRadius [zeroPoint] zeroPoint kRadius).length
      ∧ ((queryRadius [zeroPoint] zeroPoint kRadius).length : ℚ) ≠ 0) :=
  ⟨List.mem_singleton.mpr rfl,
    queryRadius_self_inclusion [zeroPoint] zeroPoint kRadius (List.mem_singleton.mpr rfl)⟩

/-- C6: the tags of the centroid index equal the originating point
indices (tagsCentroids[i] = i), and every tagged neighbour returned by a
centroid radius query carries the index of its originating
centroid/point: the tag is in range and indexes back to the stored
centroid, so a lookup of the index-aligned normal array at that tag
yields the normal of the originating point. -/
theorem taggedCentroids_roundtrip (cs : List Point) (q : Point) (radius : ℚ) :
    (∀ i, i < cs.length → (tagsCentroids cs.length).getD i 0 = i)
    ∧ (∀ p ∈ queryRadiusTagged (taggedCentroids cs) q radius,
        p.2 < cs.length ∧ cs.getD p.2 zeroPoint = p.1) := by
  constructor
  · intro i hi
    simp [tagsCentroids, List.getD, hi]
  · intro p hp
    have hp' : p ∈ taggedCentroids cs := List.mem_of_mem_filter hp
    rcases List.mem_map.mp hp' with ⟨i, hi, hpi⟩
    rw [List.mem_range] at hi
    subst hpi
    exact ⟨hi, rfl⟩

/-- Witness for C6 at a concrete one-centroid index (the nested
implications of the statement discharged at i = 0 and the returned
neighbour (zeroPoint, 0)). -/
theorem taggedCentroids_roundtrip_witness :
    (∀ i, i < ([zeroPoint] : List Point).length →
      (tagsCentroids ([zeroPoint] : List Point).length).getD i 0 = i)
    ∧ (∀ p ∈ queryRadiusTagged (taggedCentroids [zeroPoint]) zeroPoint kRadius,
        p.2 < ([zeroPoint] : List Point).length
        ∧ ([zeroPoint] : List Point).getD p.2 zeroPoint = p.1) :=
  taggedCentroids_roundtrip [zeroPoint] zeroPoint kRadius

/-- C10: with N = ⌊length/3⌋ points, every read of
`adaptDataPoints` for i < N lands in bounds (i·3 + d < length), equals
the flat-stream entry at offset 3·i + d, and the trailing
length − 3·N leftover coordinates are ignored: truncating the stream to
its first 3·N entries yields the same point rows. -/
theorem adaptDataPoints_inbounds (vs : List ℚ) (i : ℕ) (d : Fin dims)
    (hi : i < nPoints vs) :
    i * dims + d.val < vs.length
    ∧ adaptDataPoints vs i d = vs.getD (3 * i + d.val) 0
    ∧ adaptDataPoints (vs.take (3 * nPoints vs)) i d = adaptDataPoints vs i d := by
  have hd : d.val < 3 := d.isLt
  have hn : i < vs.length / 3 := hi
  have hbound : i * 3 + d.val < vs.length := by omega
  have harg : i * dims + d.val = 3 * i + d.val := by
    simp [dims]; ring
  refine ⟨by simpa [dims] using hbound, ?_, ?_⟩
  · unfold adaptDataPoints
    rw [harg]
  · unfold adaptDataPoints
    have htake : i * dims + d.val < 3 * nPoints vs := by
      have : i + 1 ≤ nPoints vs := hi
      simp only [nPoints, dims] at *
      omega
    rw [List.getD_eq_getElem?_getD, List.getD_eq_getElem?_getD,
      List.getElem?_take_of_lt htake]

/-- Witness for C10 at the 4-entry stream [1,2,3,4]: N = 1, the
leftover coordinate 4 is ignored. -/
theorem adaptDataPoints_inbounds_witness :
    0 < nPoints [(1 : ℚ), 2, 3, 4] ∧
    (0 * dims + (0 : Fin dims).val < ([(1 : ℚ), 2, 3, 4] : List ℚ).length
      ∧ adaptDataPoints [(1 : ℚ), 2, 3, 4] 0 0 = ([(1 : ℚ), 2, 3, 4] : List ℚ).getD (3 * 0 + (0 : Fin dims).val) 0
      ∧ adaptDataPoints (([(1 : ℚ), 2, 3, 4] : List ℚ).take (3 * nPoints [(1 : ℚ), 2, 3, 4])) 0 0
        = adaptDataPoints [(1 : ℚ), 2, 3, 4] 0 0) :=
  ⟨by decide, adaptDataPoints_inbounds [(1 : ℚ), 2, 3, 4] 0 0 (by decide)⟩

/-- C8: the pipeline is deterministic: it is a pure function of the
vertex stream (and the PCA routine), so two runs on equal inputs produce
equal centroid arrays, normal arrays and weight matrices. -/
theorem pipeline_deterministic
    (pca : (ℕ → Point) → ℕ → Fin dims → Fin dims → ℚ) (vs₁ vs₂ : List ℚ)
    (h : vs₁ = vs₂) : pipeline pca vs₁ = pipeline pca vs₂ := by
  rw [h]

/-- Witness for C8: two runs on the same concrete 3-entry stream. -/
theorem pipeline_deterministic_witness :
    ([(1 : ℚ), 2, 3] : List ℚ) = [(1 : ℚ), 2, 3]
    ∧ pipeline zeroPca [(1 : ℚ), 2, 3] = pipeline zeroPca [(1 : ℚ), 2, 3] :=
  ⟨rfl, pipeline_deterministic zeroPca [(1 : ℚ), 2, 3] [(1 : ℚ), 2, 3] rfl⟩

/-- C5: `main` exits with status 1 and performs no geometry computation
when the load fails, and exits with status 0 after running the full
pipeline when the load succeeds. -/
theorem mainRun_exit_status
    (pca : (ℕ → Point) → ℕ → Fin dims → Fin dims → ℚ) :
    mainRun pca .fail = (1, none)
    ∧ ∀ vs, mainRun pca (.ok vs) = (0, some (pipeline pca vs)) :=
  ⟨rfl, fun _ => rfl⟩

/-- A concrete, orthogonal PCA eigenvector matrix: its columns — the
basis vectors, per alglib's `pcabuildbasis` documentation — are
e1 = (0,1,0), e2 = (0,0,1) and e0 = (1,0,0). -/
def pcaVex : Fin dims → Fin dims → ℚ := fun r c =>
  if (r = 1 ∧ c = 0) ∨ (r = 2 ∧ c = 1) ∨ (r = 0 ∧ c = 2) then 1 else 0

/-- A PCA routine returning `pcaVex` for every input. -/
def pcaEx : (ℕ → Point) → ℕ → Fin dims → Fin dims → ℚ := fun _ _ => pcaVex

/-- C2: `calculateNormal` copies ROW dims−1 of the eigenvector matrix
(`pcaV[constants::dims-1]` is row access on alglib's row-major
`real_2d_array`), not its last COLUMN: at the concrete eigenvector
matrix `pcaVex` the returned vector (0,1,0) differs from the
smallest-eigenvalue eigenvector (1,0,0), contradicting the function's
own documentation ("the eigenvector corresponding to the least
eigenvalue", "set normal to last eigenvector"). -/
theorem calculateNormal_takes_row_not_eigenvector :
    calculateNormal pcaEx (fun _ _ => 0) 3 0 = 0
    ∧ smallestEigenvector pcaVex 0 = 1
    ∧ calculateNormal pcaEx (fun _ _ => 0) 3 ≠ smallestEigenvector pcaVex := by
  refine ⟨by decide, by decide, fun h => ?_⟩
  have h0 := congrFun h 0
  revert h0
  decide

end CPMesh
